import Mathlib

/-!
A verification development for the shift-tracking calculation engine of the
timetracker repository (src/lib/calculations.ts), shallowly embedded in Lean.

Modelling conventions:

* A JavaScript `Date` normalized to midnight is modelled by its day number
  (an `Int` counting days since 1970-01-01); the timezone offset is taken to
  be zero, so the local calendar and the calendar used to parse `YYYY-MM-DD`
  strings coincide, exactly as in the repository's test environment.
* `daysFromCivil` and `civilFromDays` model the proleptic Gregorian calendar
  that backs `Date`: `daysFromCivil` is a closed form counting days before a
  civil date, and `civilFromDays` recovers the civil triple by a bounded
  search for the year of era.  The two roundtrip theorems
  `daysFromCivil_civilFromDays` and `civilFromDays_daysFromCivil` validate
  the pair.
* `jsYear`, `jsMonth0`, `jsDate`, `jsDay` model `getFullYear`, `getMonth`
  (0-based), `getDate` and `getDay` (0 = Sunday).  `mkDate` models the
  `new Date(year, monthIndex, day)` constructor: month/day overflow
  normalization (`mkDay`, ECMAScript's `MakeDay`) composed with
  `makeFullYear`, ECMAScript's rebasing of a year argument in 0..99 to
  1900 + year.  `setDate`/`setMonth` model the mutators, which go through
  `MakeDay` only and perform no year rebasing.
* Strings are handled at the character level: `iso` models the source's
  `iso` formatter (unpadded year, zero-padded month and day),
  `parseDateString` models `new Date("YYYY-MM-DD")`, and `timeToMinutes`
  models `start.split(':').map(Number)` followed by `h * 60 + m`.
  JavaScript's `Number` on a malformed fragment yields `NaN`; the model is
  only meaningful on well-formed input, which is all the claims quantify
  over.
* Money amounts (`hourlyRate`, `pay`) are rationals; minutes are integers.
  `JSMath.max` is Lean's `max` on `Int`.
* `Shift.end` and `PeriodRange.end` are renamed `endTime`/`endDate`
  because `end` is a Lean keyword; `Shift.date` stays a string compared
  with the lexicographic string order, as in the source.
* The `YYYY-MM-DD` string format is only faithful for four-digit years, so
  the theorems about `getPeriodByOffset` (which re-parses the formatted
  base range) carry a year-range hypothesis on the reference date.
-/

def yoeStart (yoe : Int) : Int :=
  365 * yoe + yoe / 4 - yoe / 100 + yoe / 400

def findYoeAux : Nat → Int → Int
  | 0, _ => 0
  | k+1, doe => if yoeStart ((k:Int)+1) ≤ doe then ((k:Int)+1) else findYoeAux k doe

def daysFromCivil (y m d : Int) : Int :=
  let y2 := if m ≤ 2 then y - 1 else y
  let mp := if 2 < m then m - 3 else m + 9
  365 * y2 + y2 / 4 - y2 / 100 + y2 / 400 + (153 * mp + 2) / 5 + d - 1 - 719468

def civilFromDays (z : Int) : Int × Int × Int :=
  let z0 := z + 719468
  let era := z0 / 146097
  let doe := z0 % 146097
  let yoe := findYoeAux 399 doe
  let doy := doe - yoeStart yoe
  let mp := (5 * doy + 2) / 153
  let d := doy - (153 * mp + 2) / 5 + 1
  let m := if mp < 10 then mp + 3 else mp - 9
  (if m ≤ 2 then yoe + era * 400 + 1 else yoe + era * 400, m, d)

def isLeap (y : Int) : Prop := y % 4 = 0 ∧ (y % 100 ≠ 0 ∨ y % 400 = 0)

instance isLeap_dec (y : Int) : Decidable (isLeap y) := by
  unfold isLeap; infer_instance

def monthLength (y m : Int) : Int :=
  if m = 2 then (if isLeap y then 29 else 28)
  else if m = 4 ∨ m = 6 ∨ m = 9 ∨ m = 11 then 30 else 31

def jsYear (z : Int) : Int := (civilFromDays z).1

def jsMonth0 (z : Int) : Int := (civilFromDays z).2.1 - 1

def jsDate (z : Int) : Int := (civilFromDays z).2.2

def jsDay (z : Int) : Int := (z + 4) % 7

def makeFullYear (y : Int) : Int :=
  if 0 ≤ y ∧ y ≤ 99 then 1900 + y else y

def mkDay (y mIdx day : Int) : Int :=
  daysFromCivil (y + mIdx / 12) (mIdx % 12 + 1) 1 + (day - 1)

def mkDate (y mIdx day : Int) : Int := mkDay (makeFullYear y) mIdx day

def setDate (z n : Int) : Int := mkDay (jsYear z) (jsMonth0 z) n

def setMonth (z mIdx : Int) : Int := mkDay (jsYear z) mIdx (jsDate z)

def digitChar (n : Nat) : Char := Char.ofNat (48 + n)

def natToCharsAux : Nat → Nat → List Char → List Char
  | 0, _, acc => acc
  | fuel+1, n, acc =>
    if n < 10 then digitChar n :: acc
    else natToCharsAux fuel (n / 10) (digitChar (n % 10) :: acc)

def natToString (n : Nat) : String := ⟨natToCharsAux (n+1) n []⟩

def intToString (i : Int) : String :=
  if i < 0 then ⟨'-' :: (natToString i.natAbs).data⟩ else natToString i.toNat

def pad2 (n : Nat) : String :=
  let s := natToString n
  if s.length < 2 then ⟨'0' :: s.data⟩ else s

def splitOnChar (sep : Char) : List Char → List (List Char)
  | [] => [[]]
  | c :: cs =>
    let r := splitOnChar sep cs
    if c = sep then [] :: r
    else
      match r with
      | [] => [[c]]
      | g :: gs => (c :: g) :: gs

def parseNatChars (cs : List Char) : Nat :=
  cs.foldl (fun a c => a * 10 + (c.toNat - 48)) 0

def iso (z : Int) : String :=
  intToString (jsYear z) ++ "-" ++ pad2 (jsMonth0 z + 1).toNat ++ "-" ++ pad2 (jsDate z).toNat

def parseDateString (s : String) : Int :=
  let parts := splitOnChar '-' s.data
  daysFromCivil (parseNatChars (parts.getD 0 []))
    (parseNatChars (parts.getD 1 [])) (parseNatChars (parts.getD 2 []))

inductive WeekStart
  | sunday | monday | tuesday | wednesday | thursday | friday | saturday
deriving DecidableEq

inductive PeriodKind
  | weekly | monthly | custom
deriving DecidableEq

structure Settings where
  period : PeriodKind
  weekStart : WeekStart
  hourlyRate : ℚ
  userEmail : String
  accountantEmail : String

structure Shift where
  id : String
  date : String
  start : String
  endTime : String
  lunchMinutes : Int
  comment : String
  hourlyRate : ℚ
deriving DecidableEq

structure PeriodRange where
  start : String
  endDate : String
deriving DecidableEq

structure PeriodTotals where
  pay : ℚ
  durationMinutes : Int
deriving DecidableEq

structure DayTotal where
  date : String
  durationMinutes : Int
  pay : ℚ
deriving DecidableEq

def weekStartNumber : WeekStart → Int
  | .sunday => 0 | .monday => 1 | .tuesday => 2 | .wednesday => 3
  | .thursday => 4 | .friday => 5 | .saturday => 6

def timeToMinutes (s : String) : Int :=
  let parts := splitOnChar ':' s.data
  (parseNatChars (parts.getD 0 []) : Int) * 60 + (parseNatChars (parts.getD 1 []) : Int)

def minutesBetween (s e : String) : Int :=
  let startMin := timeToMinutes s
  let endMinRaw := timeToMinutes e
  let endMin := if endMinRaw < startMin then endMinRaw + 24 * 60 else endMinRaw
  max (endMin - startMin) 0

def getPeriodRange (settings : Settings) (today : Int) : Option PeriodRange :=
  if settings.period = PeriodKind.monthly then
    let start := mkDate (jsYear today) (jsMonth0 today) 1
    let e := mkDate (jsYear today) (jsMonth0 today + 1) 0
    some ⟨iso start, iso e⟩
  else if settings.period = PeriodKind.weekly then
    let target := weekStartNumber settings.weekStart
    let current := jsDay today
    let diff := (current - target + 7) % 7
    let start := setDate today (jsDate today - diff)
    let e := setDate start (jsDate start + 6)
    some ⟨iso start, iso e⟩
  else
    none

def calculateTotals (shifts : List Shift) (periodRange : Option PeriodRange) : PeriodTotals :=
  let source : List Shift := match periodRange with
    | some r => shifts.filter (fun s => decide (r.start ≤ s.date) && decide (s.date ≤ r.endDate))
    | none => shifts
  source.foldl (fun acc s =>
      let workMinutes := minutesBetween s.start s.endTime - s.lunchMinutes
      let safeMinutes := max workMinutes 0
      let hours : ℚ := (safeMinutes : ℚ) / 60
      ⟨acc.pay + hours * s.hourlyRate, acc.durationMinutes + safeMinutes⟩)
    ⟨0, 0⟩

def getPeriodByOffset (settings : Settings) (offset : Int) (today : Int) : Option PeriodRange :=
  match getPeriodRange settings today with
  | none => none
  | some base =>
    if settings.period = PeriodKind.weekly then
      let s1 := parseDateString base.start
      let s2 := setDate s1 (jsDate s1 + offset * 7)
      let e2 := setDate s2 (jsDate s2 + 6)
      some ⟨iso s2, iso e2⟩
    else if settings.period = PeriodKind.monthly then
      let s1 := parseDateString base.start
      let s2 := setMonth s1 (jsMonth0 s1 + offset)
      let e2 := mkDate (jsYear s2) (jsMonth0 s2 + 1) 0
      some ⟨iso s2, iso e2⟩
    else
      some base

def bumpDay (l : List (String × (Int × ℚ))) (date : String) (mins : Int) (pay : ℚ) :
    List (String × (Int × ℚ)) :=
  match l with
  | [] => [(date, (mins, pay))]
  | (k, v) :: rest =>
    if k = date then (k, (v.1 + mins, v.2 + pay)) :: rest
    else (k, v) :: bumpDay rest date mins pay

def groupShiftsByDay (shifts : List Shift) (periodRange : Option PeriodRange) : List DayTotal :=
  let source : List Shift := match periodRange with
    | some r => shifts.filter (fun s => decide (r.start ≤ s.date) && decide (s.date ≤ r.endDate))
    | none => shifts
  let entries := source.foldl (fun m s =>
      let workMinutes := minutesBetween s.start s.endTime - s.lunchMinutes
      let safeMinutes := max workMinutes 0
      let hours : ℚ := (safeMinutes : ℚ) / 60
      bumpDay m s.date safeMinutes (hours * s.hourlyRate)) []
  (entries.map (fun kv => DayTotal.mk kv.1 kv.2.1 kv.2.2)).insertionSort
    (fun a b => b.date ≤ a.date)

def includedShifts (shifts : List Shift) (r? : Option PeriodRange) : List Shift :=
  match r? with
  | some r => shifts.filter (fun s => decide (r.start ≤ s.date) && decide (s.date ≤ r.endDate))
  | none => shifts

def workedMinutes (s : Shift) : Int := max (minutesBetween s.start s.endTime - s.lunchMinutes) 0

def shiftPay (s : Shift) : ℚ := (workedMinutes s : ℚ) / 60 * s.hourlyRate

def dayShifts (l : List Shift) (d : String) : List Shift :=
  l.filter (fun s => decide (s.date = d))

def dayMinutes (l : List Shift) (d : String) : Int := ((dayShifts l d).map workedMinutes).sum

def dayPay (l : List Shift) (d : String) : ℚ := ((dayShifts l d).map shiftPay).sum

def findVal (E : List (String × (Int × ℚ))) (d : String) : Int × ℚ :=
  match E with
  | [] => (0, 0)
  | (k, v) :: rest => if k = d then v else findVal rest d

instance dayTotalDescTotal : IsTotal DayTotal (fun a b => b.date ≤ a.date) :=
  ⟨fun a b => (le_total b.date a.date).elim Or.inl Or.inr⟩

instance dayTotalDescTrans : IsTrans DayTotal (fun a b => b.date ≤ a.date) :=
  ⟨fun _ _ _ h1 h2 => le_trans h2 h1⟩

def timeStr (h m : Nat) : String := ⟨(pad2 h).data ++ ':' :: (pad2 m).data⟩

theorem yoeStart_mono {a b : Int} (h : a ≤ b) : yoeStart a ≤ yoeStart b := by
  simp only [yoeStart]; omega

theorem yoeStart_succ (a : Int) :
    yoeStart a + 365 ≤ yoeStart (a + 1) ∧ yoeStart (a + 1) ≤ yoeStart a + 366 := by
  simp only [yoeStart]; omega

theorem findYoeAux_spec (k : Nat) (doe : Int) (h0 : 0 ≤ doe) :
    0 ≤ findYoeAux k doe ∧ findYoeAux k doe ≤ k ∧ yoeStart (findYoeAux k doe) ≤ doe ∧
      ∀ j : Int, findYoeAux k doe < j → j ≤ k → doe < yoeStart j := by
  induction k with
  | zero =>
    refine ⟨le_refl 0, le_refl 0, ?_, ?_⟩
    · simp [findYoeAux, yoeStart]; omega
    · intro j h1 h2; simp only [findYoeAux] at h1; omega
  | succ k ih =>
    simp only [findYoeAux]
    split
    · rename_i hle
      refine ⟨by positivity, le_refl _, by push_cast; exact hle, ?_⟩
      intro j h1 h2
      push_cast at h1 h2; omega
    · rename_i hgt
      push_cast at hgt
      obtain ⟨i1, i2, i3, i4⟩ := ih
      refine ⟨i1, by push_cast; omega, i3, ?_⟩
      intro j h1 h2
      push_cast at h2
      rcases lt_or_ge j (k+1 : Int) with hj | hj
      · exact i4 j h1 (by push_cast; omega)
      · have hj2 : j = (k : Int) + 1 := by omega
        rw [hj2]; omega

theorem yoeStart_top : yoeStart 400 = 146097 := by norm_num [yoeStart]

theorem findYoe_bracket (doe : Int) (h0 : 0 ≤ doe) (h1 : doe < 146097) :
    0 ≤ findYoeAux 399 doe ∧ findYoeAux 399 doe ≤ 399 ∧
      yoeStart (findYoeAux 399 doe) ≤ doe ∧ doe < yoeStart (findYoeAux 399 doe + 1) := by
  obtain ⟨s1, s2, s3, s4⟩ := findYoeAux_spec 399 doe h0
  refine ⟨s1, by exact_mod_cast s2, s3, ?_⟩
  rcases lt_or_ge (findYoeAux 399 doe) 399 with hr | hr
  · exact s4 _ (by omega) (by push_cast; omega)
  · have : findYoeAux 399 doe = 399 := by exact_mod_cast le_antisymm s2 hr
    rw [this]
    norm_num [yoeStart_top]
    omega

theorem dfc_of_parts (era r mp d : Int) (h1 : 0 ≤ r) (h2 : r ≤ 399)
    (h3 : 0 ≤ mp) (h4 : mp ≤ 11) :
    daysFromCivil (if (if mp < 10 then mp + 3 else mp - 9) ≤ 2 then r + era * 400 + 1 else r + era * 400)
      (if mp < 10 then mp + 3 else mp - 9) d
    = era * 146097 + yoeStart r + ((153 * mp + 2) / 5 + d - 1) - 719468 := by
  simp only [daysFromCivil, yoeStart]
  split_ifs <;> (try simp only [add_sub_cancel_right, sub_add_cancel]) <;> omega

set_option maxHeartbeats 1000000 in
theorem daysFromCivil_civilFromDays (z : Int) :
    daysFromCivil (civilFromDays z).1 (civilFromDays z).2.1 (civilFromDays z).2.2 = z := by
  have h0 : 0 ≤ (z + 719468) % 146097 := Int.emod_nonneg _ (by norm_num)
  have h1 : (z + 719468) % 146097 < 146097 := Int.emod_lt_of_pos _ (by norm_num)
  obtain ⟨b1, b2, b3, b4⟩ := findYoe_bracket _ h0 h1
  have hsucc := yoeStart_succ (findYoeAux 399 ((z + 719468) % 146097))
  have hrec : ((z + 719468) / 146097) * 146097 + (z + 719468) % 146097 = z + 719468 := by omega
  simp only [civilFromDays]
  rw [dfc_of_parts _ _ _ _ b1 b2 ?h3 ?h4]
  case h3 => omega
  case h4 => omega
  omega

theorem findYoe_of_bracket (yoe doe : Int) (h1 : 0 ≤ yoe) (h2 : yoe ≤ 399)
    (h3 : yoeStart yoe ≤ doe) (h4 : doe < yoeStart (yoe + 1)) :
    findYoeAux 399 doe = yoe := by
  have hy0 : 0 ≤ yoeStart yoe := by simp only [yoeStart]; omega
  obtain ⟨s1, s2, s3, s4⟩ := findYoeAux_spec 399 doe (by omega)
  rcases lt_trichotomy (findYoeAux 399 doe) yoe with hlt | heq | hgt
  · have := s4 yoe hlt (by push_cast; omega)
    omega
  · exact heq
  · have hmono := yoeStart_mono (show yoe + 1 ≤ findYoeAux 399 doe by omega)
    omega

theorem cfd_of_parts (era yoe doy : Int) (h1 : 0 ≤ yoe) (h2 : yoe ≤ 399)
    (h3 : 0 ≤ doy) (h4 : yoeStart yoe + doy < yoeStart (yoe + 1)) :
    civilFromDays (era * 146097 + yoeStart yoe + doy - 719468) =
      (if (if (5 * doy + 2) / 153 < 10 then (5 * doy + 2) / 153 + 3 else (5 * doy + 2) / 153 - 9) ≤ 2
         then yoe + era * 400 + 1 else yoe + era * 400,
       if (5 * doy + 2) / 153 < 10 then (5 * doy + 2) / 153 + 3 else (5 * doy + 2) / 153 - 9,
       doy - (153 * ((5 * doy + 2) / 153) + 2) / 5 + 1) := by
  have hyS : 0 ≤ yoeStart yoe := by simp only [yoeStart]; omega
  have hy400 : yoeStart (yoe + 1) ≤ yoeStart 400 := yoeStart_mono (by omega)
  have htop : yoeStart 400 = 146097 := yoeStart_top
  simp only [civilFromDays]
  have e1 : era * 146097 + yoeStart yoe + doy - 719468 + 719468 =
      era * 146097 + (yoeStart yoe + doy) := by ring
  rw [e1]
  have e2 : (era * 146097 + (yoeStart yoe + doy)) / 146097 = era := by omega
  have e3 : (era * 146097 + (yoeStart yoe + doy)) % 146097 = yoeStart yoe + doy := by omega
  rw [e2, e3]
  have e4 : findYoeAux 399 (yoeStart yoe + doy) = yoe :=
    findYoe_of_bracket yoe _ h1 h2 (by omega) h4
  rw [e4]
  have e5 : yoeStart yoe + doy - yoeStart yoe = doy := by ring
  rw [e5]

theorem monthLength_le (y m : Int) : monthLength y m ≤ 31 := by
  simp only [monthLength]; split_ifs <;> omega

theorem recon (y era yoe m mp d doy : Int)
    (hrel : (2 < m ∧ mp = m - 3 ∧ yoe + era * 400 = y) ∨ (m ≤ 2 ∧ mp = m + 9 ∧ yoe + era * 400 = y - 1))
    (hm1 : 1 ≤ m) (hm2 : m ≤ 12) (hd1 : 1 ≤ d)
    (hdoy : doy = (153 * mp + 2) / 5 + d - 1)
    (hup : doy < (153 * (mp + 1) + 2) / 5 ∨ (mp = 11 ∧ doy ≤ 365)) :
    ((if (if (5 * doy + 2) / 153 < 10 then (5 * doy + 2) / 153 + 3 else (5 * doy + 2) / 153 - 9) ≤ 2
        then yoe + era * 400 + 1 else yoe + era * 400),
     (if (5 * doy + 2) / 153 < 10 then (5 * doy + 2) / 153 + 3 else (5 * doy + 2) / 153 - 9),
     doy - (153 * ((5 * doy + 2) / 153) + 2) / 5 + 1) = ((y, m, d) : Int × Int × Int) := by
  simp only [Prod.mk.injEq]
  split_ifs <;> omega

set_option maxHeartbeats 2000000 in
theorem doy_facts (y y2 yoe m mp d doy : Int)
    (hrel : (2 < m ∧ mp = m - 3 ∧ y2 = y) ∨ (m ≤ 2 ∧ mp = m + 9 ∧ y2 = y - 1))
    (hyoe : yoe = y2 - y2 / 400 * 400)
    (hm1 : 1 ≤ m) (hm2 : m ≤ 12) (hd1 : 1 ≤ d) (hd2 : d ≤ monthLength y m)
    (hdoy : doy = (153 * mp + 2) / 5 + d - 1) :
    yoeStart yoe + doy < yoeStart (yoe + 1) ∧ 0 ≤ doy ∧
      (doy < (153 * (mp + 1) + 2) / 5 ∨ (mp = 11 ∧ doy ≤ 365)) := by
  simp only [yoeStart, monthLength] at *
  interval_cases m <;> (try norm_num at hrel) <;> (try norm_num at hd2) <;> (try omega)
  split_ifs at hd2 with hly
  · simp only [isLeap] at hly
    omega
  · omega

theorem dfc_era_form (y m d : Int) :
    daysFromCivil y m d =
      (if m ≤ 2 then y - 1 else y) / 400 * 146097 +
        yoeStart ((if m ≤ 2 then y - 1 else y) - (if m ≤ 2 then y - 1 else y) / 400 * 400) +
        ((153 * (if 2 < m then m - 3 else m + 9) + 2) / 5 + d - 1) - 719468 := by
  simp only [daysFromCivil, yoeStart]
  omega

set_option maxHeartbeats 1000000 in
theorem civilFromDays_daysFromCivil (y m d : Int) (hm1 : 1 ≤ m) (hm2 : m ≤ 12)
    (hd1 : 1 ≤ d) (hd2 : d ≤ monthLength y m) :
    civilFromDays (daysFromCivil y m d) = (y, m, d) := by
  have hrel : (2 < m ∧ (if 2 < m then m - 3 else m + 9) = m - 3 ∧ (if m ≤ 2 then y - 1 else y) = y) ∨
      (m ≤ 2 ∧ (if 2 < m then m - 3 else m + 9) = m + 9 ∧ (if m ≤ 2 then y - 1 else y) = y - 1) := by
    rcases le_or_lt m 2 with h | h
    · exact Or.inr ⟨h, if_neg (by omega), if_pos h⟩
    · exact Or.inl ⟨h, if_pos h, if_neg (by omega)⟩
  obtain ⟨f1, f2, f3⟩ := doy_facts y (if m ≤ 2 then y - 1 else y)
      ((if m ≤ 2 then y - 1 else y) - (if m ≤ 2 then y - 1 else y) / 400 * 400)
      m (if 2 < m then m - 3 else m + 9) d
      ((153 * (if 2 < m then m - 3 else m + 9) + 2) / 5 + d - 1)
      hrel rfl hm1 hm2 hd1 hd2 rfl
  have hrel2 : (2 < m ∧ (if 2 < m then m - 3 else m + 9) = m - 3 ∧
        ((if m ≤ 2 then y - 1 else y) - (if m ≤ 2 then y - 1 else y) / 400 * 400) +
          ((if m ≤ 2 then y - 1 else y) / 400) * 400 = y) ∨
      (m ≤ 2 ∧ (if 2 < m then m - 3 else m + 9) = m + 9 ∧
        ((if m ≤ 2 then y - 1 else y) - (if m ≤ 2 then y - 1 else y) / 400 * 400) +
          ((if m ≤ 2 then y - 1 else y) / 400) * 400 = y - 1) := by
    rcases hrel with ⟨a, b, c⟩ | ⟨a, b, c⟩
    · exact Or.inl ⟨a, b, by omega⟩
    · exact Or.inr ⟨a, b, by omega⟩
  rw [dfc_era_form]
  rw [cfd_of_parts _ _ _ (by omega) (by omega) f2 f1]
  exact recon y _ _ m _ d _ hrel2 hm1 hm2 hd1 rfl f3

set_option maxHeartbeats 1000000 in
theorem civil_bounds (z : Int) :
    1 ≤ (civilFromDays z).2.1 ∧ (civilFromDays z).2.1 ≤ 12 ∧
      1 ≤ (civilFromDays z).2.2 ∧ (civilFromDays z).2.2 ≤ 31 := by
  have h0 : 0 ≤ (z + 719468) % 146097 := Int.emod_nonneg _ (by norm_num)
  have h1 : (z + 719468) % 146097 < 146097 := Int.emod_lt_of_pos _ (by norm_num)
  obtain ⟨b1, b2, b3, b4⟩ := findYoe_bracket _ h0 h1
  have hsucc := yoeStart_succ (findYoeAux 399 ((z + 719468) % 146097))
  simp only [civilFromDays, yoeStart] at *
  split_ifs <;> omega

theorem setDate_eq (z n : Int) : setDate z n = z + (n - jsDate z) := by
  obtain ⟨c1, c2, c3, c4⟩ := civil_bounds z
  have hL1 := daysFromCivil_civilFromDays z
  simp only [setDate, mkDay, jsYear, jsMonth0, jsDate] at *
  have e1 : ((civilFromDays z).2.1 - 1) / 12 = 0 := by omega
  have e2 : ((civilFromDays z).2.1 - 1) % 12 + 1 = (civilFromDays z).2.1 := by omega
  rw [e1, e2, add_zero]
  have e3 : daysFromCivil (civilFromDays z).1 (civilFromDays z).2.1 (civilFromDays z).2.2
      = daysFromCivil (civilFromDays z).1 (civilFromDays z).2.1 1 + ((civilFromDays z).2.2 - 1) := by
    simp only [daysFromCivil]; omega
  omega

theorem digitChar_toNat (d : Nat) (h : d ≤ 9) : (digitChar d).toNat = 48 + d := by
  interval_cases d <;> decide

theorem digitChar_ne_dash (d : Nat) (h : d ≤ 9) : digitChar d ≠ '-' := by
  interval_cases d <;> decide

theorem natToCharsAux_small (fuel n : Nat) (acc : List Char) (h : n < 10) :
    natToCharsAux (fuel+1) n acc = digitChar n :: acc := by
  simp [natToCharsAux, h]

theorem natToCharsAux_step (fuel n : Nat) (acc : List Char) (h : ¬ n < 10) :
    natToCharsAux (fuel+1) n acc = natToCharsAux fuel (n / 10) (digitChar (n % 10) :: acc) := by
  simp [natToCharsAux, h]

theorem natToString_digits1 (n : Nat) (h : n < 10) :
    (natToString n).data = [digitChar n] := by
  show (natToCharsAux (n+1) n []) = _
  rw [natToCharsAux_small _ _ _ h]

theorem natToString_digits2 (n : Nat) (h1 : 10 ≤ n) (h2 : n ≤ 99) :
    (natToString n).data = [digitChar (n / 10), digitChar (n % 10)] := by
  show (natToCharsAux (n+1) n []) = _
  rw [natToCharsAux_step _ _ _ (by omega)]
  obtain ⟨f, rfl⟩ : ∃ f, n = f + 1 := ⟨n - 1, by omega⟩
  rw [natToCharsAux_small _ _ _ (by omega)]

theorem natToString_digits4 (n : Nat) (h1 : 1000 ≤ n) (h2 : n ≤ 9999) :
    (natToString n).data =
      [digitChar (n / 1000), digitChar (n / 100 % 10), digitChar (n / 10 % 10), digitChar (n % 10)] := by
  show (natToCharsAux (n+1) n []) = _
  rw [natToCharsAux_step _ _ _ (by omega)]
  obtain ⟨f, rfl⟩ : ∃ f, n = f + 1 := ⟨n - 1, by omega⟩
  rw [natToCharsAux_step _ _ _ (by omega)]
  obtain ⟨g, rfl⟩ : ∃ g, f = g + 1 := ⟨f - 1, by omega⟩
  rw [natToCharsAux_step _ _ _ (by omega)]
  obtain ⟨k, rfl⟩ : ∃ k, g = k + 1 := ⟨g - 1, by omega⟩
  rw [natToCharsAux_small _ _ _ (by omega)]
  simp only [Nat.div_div_eq_div_mul]

theorem pad2_data (n : Nat) (h : n ≤ 99) :
    (pad2 n).data = [digitChar (n / 10), digitChar (n % 10)] := by
  by_cases h10 : n < 10
  · have hd := natToString_digits1 n h10
    have e1 : n / 10 = 0 := by omega
    have e2 : n % 10 = n := by omega
    rw [e1, e2]
    simp only [pad2, String.length, hd]
    norm_num
    decide
  · have hd := natToString_digits2 n (by omega) h
    simp only [pad2, String.length, hd]
    norm_num
    exact hd

theorem splitOnChar_no_sep (sep : Char) (l : List Char) (h : ∀ c ∈ l, c ≠ sep) :
    splitOnChar sep l = [l] := by
  induction l with
  | nil => rfl
  | cons c cs ih =>
    simp only [splitOnChar]
    rw [if_neg (h c (by simp)), ih (fun x hx => h x (by simp [hx]))]

theorem splitOnChar_append (sep : Char) (l1 rest : List Char) (h : ∀ c ∈ l1, c ≠ sep) :
    splitOnChar sep (l1 ++ sep :: rest) = l1 :: splitOnChar sep rest := by
  induction l1 with
  | nil => simp [splitOnChar]
  | cons c cs ih =>
    simp only [List.cons_append, List.append_eq, splitOnChar]
    rw [if_neg (h c (by simp)), ih (fun x hx => h x (by simp [hx]))]

theorem parseNatChars_two (a b : Nat) (ha : a ≤ 9) (hb : b ≤ 9) :
    parseNatChars [digitChar a, digitChar b] = a * 10 + b := by
  simp [parseNatChars, List.foldl, digitChar_toNat _ ha, digitChar_toNat _ hb]

theorem parseNatChars_four (a b c d : Nat) (ha : a ≤ 9) (hb : b ≤ 9) (hc : c ≤ 9) (hd : d ≤ 9) :
    parseNatChars [digitChar a, digitChar b, digitChar c, digitChar d] =
      ((a * 10 + b) * 10 + c) * 10 + d := by
  simp [parseNatChars, List.foldl, digitChar_toNat _ ha, digitChar_toNat _ hb,
    digitChar_toNat _ hc, digitChar_toNat _ hd]

set_option maxHeartbeats 1000000 in
theorem parse_iso (z : Int) (hy1 : 1000 ≤ jsYear z) (hy2 : jsYear z ≤ 9999) :
    parseDateString (iso z) = z := by
  obtain ⟨c1, c2, c3, c4⟩ := civil_bounds z
  have hL1 := daysFromCivil_civilFromDays z
  have hyn : (jsYear z).toNat ≤ 9999 := by omega
  have hyn2 : 1000 ≤ (jsYear z).toNat := by unfold jsYear at *; omega
  have hy4 := natToString_digits4 _ hyn2 hyn
  have hmn : (jsMonth0 z + 1).toNat ≤ 99 := by unfold jsMonth0 at *; omega
  have hdn : (jsDate z).toNat ≤ 99 := by unfold jsDate at *; omega
  have hm2 := pad2_data _ hmn
  have hd2 := pad2_data _ hdn
  have hdata : (iso z).data =
      (natToString (jsYear z).toNat).data ++ '-' ::
        ((pad2 (jsMonth0 z + 1).toNat).data ++ '-' :: (pad2 (jsDate z).toNat).data) := by
    simp only [iso, intToString, if_neg (show ¬ jsYear z < 0 by omega)]
    simp [String.data_append]
  have hsplit : splitOnChar '-' (iso z).data =
      [[digitChar ((jsYear z).toNat / 1000), digitChar ((jsYear z).toNat / 100 % 10),
        digitChar ((jsYear z).toNat / 10 % 10), digitChar ((jsYear z).toNat % 10)],
       [digitChar ((jsMonth0 z + 1).toNat / 10), digitChar ((jsMonth0 z + 1).toNat % 10)],
       [digitChar ((jsDate z).toNat / 10), digitChar ((jsDate z).toNat % 10)]] := by
    rw [hdata, hy4, hm2, hd2]
    rw [splitOnChar_append _ _ _ (by
      intro c hcm
      simp only [List.mem_cons, List.not_mem_nil, or_false] at hcm
      rcases hcm with rfl | rfl | rfl | rfl <;> exact digitChar_ne_dash _ (by omega))]
    rw [splitOnChar_append _ _ _ (by
      intro c hcm
      simp only [List.mem_cons, List.not_mem_nil, or_false] at hcm
      rcases hcm with rfl | rfl <;> exact digitChar_ne_dash _ (by omega))]
    rw [splitOnChar_no_sep _ _ (by
      intro c hcm
      simp only [List.mem_cons, List.not_mem_nil, or_false] at hcm
      rcases hcm with rfl | rfl <;> exact digitChar_ne_dash _ (by omega))]
  unfold parseDateString
  rw [hsplit]
  simp only [List.getD, List.get?, Option.getD]
  rw [parseNatChars_four _ _ _ _ (by omega) (by omega) (by omega) (by omega)]
  rw [parseNatChars_two _ _ (by omega) (by omega), parseNatChars_two _ _ (by omega) (by omega)]
  have ey : ((((jsYear z).toNat / 1000 * 10 + (jsYear z).toNat / 100 % 10) * 10 +
      (jsYear z).toNat / 10 % 10) * 10 + (jsYear z).toNat % 10 : Int) = (civilFromDays z).1 := by
    unfold jsYear at *; push_cast; omega
  have em : ((jsMonth0 z + 1).toNat / 10 * 10 + (jsMonth0 z + 1).toNat % 10 : Int)
      = (civilFromDays z).2.1 := by
    unfold jsMonth0 at *; push_cast; omega
  have ed : ((jsDate z).toNat / 10 * 10 + (jsDate z).toNat % 10 : Int) = (civilFromDays z).2.2 := by
    unfold jsDate at *; push_cast; omega
  push_cast
  rw [ey, em, ed]
  exact hL1

theorem calc_foldl (l : List Shift) (acc : PeriodTotals) :
    l.foldl (fun acc s =>
      let workMinutes := minutesBetween s.start s.endTime - s.lunchMinutes
      let safeMinutes := max workMinutes 0
      let hours : ℚ := (safeMinutes : ℚ) / 60
      (⟨acc.pay + hours * s.hourlyRate, acc.durationMinutes + safeMinutes⟩ : PeriodTotals)) acc
    = ⟨acc.pay + (l.map shiftPay).sum, acc.durationMinutes + (l.map workedMinutes).sum⟩ := by
  induction l generalizing acc with
  | nil => simp
  | cons s rest ih =>
    simp only [List.foldl_cons, List.map_cons, List.sum_cons, ih, workedMinutes, shiftPay]
    refine congrArg₂ PeriodTotals.mk ?_ ?_
    · push_cast; ring
    · ring

theorem calculateTotals_eq (shifts : List Shift) (r? : Option PeriodRange) :
    calculateTotals shifts r? =
      ⟨((includedShifts shifts r?).map shiftPay).sum,
       ((includedShifts shifts r?).map workedMinutes).sum⟩ := by
  cases r? with
  | none =>
    have h := calc_foldl shifts ⟨0, 0⟩
    simp only [zero_add] at h
    exact h
  | some r =>
    have h := calc_foldl
      (shifts.filter (fun s => decide (r.start ≤ s.date) && decide (s.date ≤ r.endDate))) ⟨0, 0⟩
    simp only [zero_add] at h
    exact h

theorem includedShifts_mem (shifts : List Shift) (r? : Option PeriodRange) (s : Shift) :
    s ∈ includedShifts shifts r? ↔
      s ∈ shifts ∧ ∀ r, r? = some r → (r.start ≤ s.date ∧ s.date ≤ r.endDate) := by
  cases r? with
  | none => simp [includedShifts]
  | some r => simp [includedShifts, List.mem_filter]

theorem bumpDay_keys (l : List (String × (Int × ℚ))) (d : String) (m : Int) (p : ℚ) :
    (bumpDay l d m p).map Prod.fst =
      if d ∈ l.map Prod.fst then l.map Prod.fst else l.map Prod.fst ++ [d] := by
  induction l with
  | nil => simp [bumpDay]
  | cons kv rest ih =>
    obtain ⟨k, v⟩ := kv
    simp only [bumpDay, List.map_cons, List.mem_cons]
    by_cases hk : k = d
    · subst hk
      simp
    · rw [if_neg hk]
      simp only [List.map_cons, ih]
      by_cases hd : d ∈ rest.map Prod.fst
      · rw [if_pos hd, if_pos (by tauto)]
      · rw [if_neg hd, if_neg (by
          intro hmem
          rcases hmem with h | h
          · exact hk h.symm
          · exact hd h)]
        simp

theorem bumpDay_findVal (l : List (String × (Int × ℚ))) (d : String) (m : Int) (p : ℚ)
    (k : String) :
    findVal (bumpDay l d m p) k =
      if k = d then ((findVal l d).1 + m, (findVal l d).2 + p) else findVal l k := by
  induction l with
  | nil =>
    by_cases hk : k = d <;> simp_all [bumpDay, findVal] <;> simp [Ne.symm hk]
  | cons kv rest ih =>
    obtain ⟨k0, v⟩ := kv
    by_cases h0 : k0 = d <;> by_cases hk : k0 = k <;> by_cases hkd : k = d <;>
      simp_all [bumpDay, findVal] <;> simp [Ne.symm hk, Ne.symm h0]

theorem bumpDay_sumMin (l : List (String × (Int × ℚ))) (d : String) (m : Int) (p : ℚ) :
    ((bumpDay l d m p).map (fun kv => kv.2.1)).sum = (l.map (fun kv => kv.2.1)).sum + m := by
  induction l with
  | nil => simp [bumpDay]
  | cons kv rest ih =>
    obtain ⟨k, v⟩ := kv
    simp only [bumpDay]
    by_cases hk : k = d
    · subst hk; simp; ring
    · rw [if_neg hk]
      simp [ih]; ring

theorem bumpDay_sumPay (l : List (String × (Int × ℚ))) (d : String) (m : Int) (p : ℚ) :
    ((bumpDay l d m p).map (fun kv => kv.2.2)).sum = (l.map (fun kv => kv.2.2)).sum + p := by
  induction l with
  | nil => simp [bumpDay]
  | cons kv rest ih =>
    obtain ⟨k, v⟩ := kv
    simp only [bumpDay]
    by_cases hk : k = d
    · subst hk; simp; ring
    · rw [if_neg hk]
      simp [ih]; ring

theorem bumpDay_nodup (l : List (String × (Int × ℚ))) (d : String) (m : Int) (p : ℚ)
    (h : (l.map Prod.fst).Nodup) : ((bumpDay l d m p).map Prod.fst).Nodup := by
  rw [bumpDay_keys]
  by_cases hd : d ∈ l.map Prod.fst
  · rwa [if_pos hd]
  · rw [if_neg hd]
    simp [List.nodup_append, h, hd]

theorem bumpDay_mem_keys (l : List (String × (Int × ℚ))) (d : String) (m : Int) (p : ℚ)
    (k : String) :
    k ∈ (bumpDay l d m p).map Prod.fst ↔ k ∈ l.map Prod.fst ∨ k = d := by
  rw [bumpDay_keys]
  split_ifs with hd
  · constructor
    · exact fun h => Or.inl h
    · rintro (h | rfl)
      · exact h
      · exact hd
  · simp

theorem dayMinutes_cons (s : Shift) (rest : List Shift) (k : String) :
    dayMinutes (s :: rest) k =
      (if s.date = k then workedMinutes s else 0) + dayMinutes rest k := by
  simp only [dayMinutes, dayShifts, List.filter_cons]
  split_ifs with h <;> simp_all

theorem dayPay_cons (s : Shift) (rest : List Shift) (k : String) :
    dayPay (s :: rest) k = (if s.date = k then shiftPay s else 0) + dayPay rest k := by
  simp only [dayPay, dayShifts, List.filter_cons]
  split_ifs with h <;> simp_all

theorem group_fold_findVal (l : List Shift) (E : List (String × (Int × ℚ))) (k : String) :
    findVal (l.foldl (fun m s => bumpDay m s.date (workedMinutes s) (shiftPay s)) E) k =
      ((findVal E k).1 + dayMinutes l k, (findVal E k).2 + dayPay l k) := by
  induction l generalizing E with
  | nil => simp [dayMinutes, dayPay, dayShifts]
  | cons s rest ih =>
    simp only [List.foldl_cons, ih, bumpDay_findVal, dayMinutes_cons, dayPay_cons]
    by_cases hk : k = s.date
    · subst hk
      simp only [eq_self_iff_true, if_true]
      refine congrArg₂ Prod.mk ?_ ?_ <;> ring
    · have hk2 : ¬ (s.date = k) := fun h => hk h.symm
      simp only [if_neg hk, if_neg hk2]
      refine congrArg₂ Prod.mk ?_ ?_ <;> ring

theorem group_fold_mem_keys (l : List Shift) (E : List (String × (Int × ℚ))) (k : String) :
    k ∈ (l.foldl (fun m s => bumpDay m s.date (workedMinutes s) (shiftPay s)) E).map Prod.fst ↔
      k ∈ E.map Prod.fst ∨ k ∈ l.map Shift.date := by
  induction l generalizing E with
  | nil => simp
  | cons s rest ih =>
    simp only [List.foldl_cons, ih, bumpDay_mem_keys, List.map_cons, List.mem_cons]
    tauto

theorem group_fold_nodup (l : List Shift) (E : List (String × (Int × ℚ)))
    (h : (E.map Prod.fst).Nodup) :
    ((l.foldl (fun m s => bumpDay m s.date (workedMinutes s) (shiftPay s)) E).map Prod.fst).Nodup := by
  induction l generalizing E with
  | nil => exact h
  | cons s rest ih => exact ih _ (bumpDay_nodup _ _ _ _ h)

theorem group_fold_sumMin (l : List Shift) (E : List (String × (Int × ℚ))) :
    ((l.foldl (fun m s => bumpDay m s.date (workedMinutes s) (shiftPay s)) E).map
        (fun kv => kv.2.1)).sum =
      (E.map (fun kv => kv.2.1)).sum + (l.map workedMinutes).sum := by
  induction l generalizing E with
  | nil => simp
  | cons s rest ih =>
    simp only [List.foldl_cons, ih, bumpDay_sumMin, List.map_cons, List.sum_cons]
    ring

theorem group_fold_sumPay (l : List Shift) (E : List (String × (Int × ℚ))) :
    ((l.foldl (fun m s => bumpDay m s.date (workedMinutes s) (shiftPay s)) E).map
        (fun kv => kv.2.2)).sum =
      (E.map (fun kv => kv.2.2)).sum + (l.map shiftPay).sum := by
  induction l generalizing E with
  | nil => simp
  | cons s rest ih =>
    simp only [List.foldl_cons, ih, bumpDay_sumPay, List.map_cons, List.sum_cons]
    ring

theorem findVal_of_mem_nodup (E : List (String × (Int × ℚ))) (kv : String × (Int × ℚ))
    (hmem : kv ∈ E) (h : (E.map Prod.fst).Nodup) : findVal E kv.1 = kv.2 := by
  induction E with
  | nil => simp at hmem
  | cons kv0 rest ih =>
    obtain ⟨k0, v0⟩ := kv0
    simp only [List.map_cons, List.nodup_cons] at h
    rcases List.mem_cons.mp hmem with rfl | hmem'
    · simp [findVal]
    · simp only [findVal]
      rw [if_neg (by
        intro hk
        exact h.1 (hk ▸ (List.mem_map.mpr ⟨kv, hmem', rfl⟩))), ih hmem' h.2]

theorem groupShiftsByDay_def (shifts : List Shift) (r? : Option PeriodRange) :
    groupShiftsByDay shifts r? =
      (((includedShifts shifts r?).foldl
          (fun m s => bumpDay m s.date (workedMinutes s) (shiftPay s)) []).map
        (fun kv => DayTotal.mk kv.1 kv.2.1 kv.2.2)).insertionSort (fun a b => b.date ≤ a.date) := by
  cases r? <;> rfl

set_option maxHeartbeats 1000000 in
theorem groupShiftsByDay_spec (shifts : List Shift) (r? : Option PeriodRange) :
    List.Sorted (fun a b : DayTotal => b.date ≤ a.date) (groupShiftsByDay shifts r?) ∧
    ((groupShiftsByDay shifts r?).map DayTotal.date).Nodup ∧
    (∀ d, d ∈ (groupShiftsByDay shifts r?).map DayTotal.date ↔
      d ∈ (includedShifts shifts r?).map Shift.date) ∧
    (∀ e ∈ groupShiftsByDay shifts r?,
      e.durationMinutes = dayMinutes (includedShifts shifts r?) e.date ∧
      e.pay = dayPay (includedShifts shifts r?) e.date) ∧
    ((groupShiftsByDay shifts r?).map DayTotal.pay).sum =
      ((includedShifts shifts r?).map shiftPay).sum ∧
    ((groupShiftsByDay shifts r?).map DayTotal.durationMinutes).sum =
      ((includedShifts shifts r?).map workedMinutes).sum := by
  rw [groupShiftsByDay_def]
  have hperm := List.perm_insertionSort (fun a b : DayTotal => b.date ≤ a.date)
    (((includedShifts shifts r?).foldl
        (fun m s => bumpDay m s.date (workedMinutes s) (shiftPay s)) []).map
      (fun kv => DayTotal.mk kv.1 kv.2.1 kv.2.2))
  have hnodupE := group_fold_nodup (includedShifts shifts r?) [] (by simp)
  refine ⟨List.sorted_insertionSort _ _, ?_, ?_, ?_, ?_, ?_⟩
  · rw [(hperm.map DayTotal.date).nodup_iff]
    simpa [List.map_map, Function.comp] using hnodupE
  · intro d
    rw [(hperm.map DayTotal.date).mem_iff]
    have := group_fold_mem_keys (includedShifts shifts r?) [] d
    simp only [List.map_nil, List.not_mem_nil, false_or] at this
    simpa [List.map_map, Function.comp] using this
  · intro e he
    rw [hperm.mem_iff] at he
    obtain ⟨kv, hkv, rfl⟩ := List.mem_map.mp he
    have hfv := findVal_of_mem_nodup _ kv hkv hnodupE
    have hval := group_fold_findVal (includedShifts shifts r?) [] kv.1
    simp only [findVal, zero_add] at hval
    rw [hval] at hfv
    exact ⟨congrArg Prod.fst hfv.symm, congrArg Prod.snd hfv.symm⟩
  · rw [(hperm.map DayTotal.pay).sum_eq]
    have := group_fold_sumPay (includedShifts shifts r?) []
    simp only [List.map_nil, List.sum_nil, zero_add] at this
    simpa [List.map_map, Function.comp] using this
  · rw [(hperm.map DayTotal.durationMinutes).sum_eq]
    have := group_fold_sumMin (includedShifts shifts r?) []
    simp only [List.map_nil, List.sum_nil, zero_add] at this
    simpa [List.map_map, Function.comp] using this

theorem monthLength_pos (y m : Int) : 28 ≤ monthLength y m := by
  simp only [monthLength]; split_ifs <;> omega

theorem dfc_ge_jan1 (y m d : Int) (h1 : 1 ≤ m) (h2 : m ≤ 12) (h3 : 1 ≤ d) :
    daysFromCivil y 1 1 ≤ daysFromCivil y m d := by
  simp only [daysFromCivil]
  interval_cases m <;> norm_num <;> omega

theorem dfc_le_dec31 (y m d : Int) (h1 : 1 ≤ m) (h2 : m ≤ 12) (h3 : d ≤ 31) :
    daysFromCivil y m d ≤ daysFromCivil y 12 31 := by
  simp only [daysFromCivil]
  interval_cases m <;> norm_num <;> omega

theorem dec31_lt_jan1 (y : Int) : daysFromCivil y 12 31 < daysFromCivil (y + 1) 1 1 := by
  simp only [daysFromCivil]
  norm_num
  omega

theorem jan1_mono (y y' : Int) (h : y ≤ y') : daysFromCivil y 1 1 ≤ daysFromCivil y' 1 1 := by
  simp only [daysFromCivil]
  norm_num
  omega

theorem jan1_gap (y : Int) : daysFromCivil (y - 1) 1 1 + 365 ≤ daysFromCivil y 1 1 := by
  simp only [daysFromCivil]
  norm_num
  omega

theorem jsYear_mono (z1 z2 : Int) (h : z1 ≤ z2) : jsYear z1 ≤ jsYear z2 := by
  by_contra hy
  push_neg at hy
  obtain ⟨a1, a2, a3, a4⟩ := civil_bounds z1
  obtain ⟨b1, b2, b3, b4⟩ := civil_bounds z2
  have hL1 := daysFromCivil_civilFromDays z1
  have hL2 := daysFromCivil_civilFromDays z2
  have c1 : z2 ≤ daysFromCivil (civilFromDays z2).1 12 31 := by
    calc z2 = daysFromCivil (civilFromDays z2).1 (civilFromDays z2).2.1 (civilFromDays z2).2.2 :=
          hL2.symm
    _ ≤ _ := dfc_le_dec31 _ _ _ b1 b2 b4
  have c2 : daysFromCivil (civilFromDays z2).1 12 31 <
      daysFromCivil ((civilFromDays z2).1 + 1) 1 1 := dec31_lt_jan1 _
  have c3 : daysFromCivil ((civilFromDays z2).1 + 1) 1 1 ≤
      daysFromCivil (civilFromDays z1).1 1 1 := jan1_mono _ _ (by unfold jsYear at hy; omega)
  have c4 : daysFromCivil (civilFromDays z1).1 1 1 ≤ z1 := by
    calc daysFromCivil (civilFromDays z1).1 1 1
        ≤ daysFromCivil (civilFromDays z1).1 (civilFromDays z1).2.1 (civilFromDays z1).2.2 :=
          dfc_ge_jan1 _ _ _ a1 a2 a3
    _ = z1 := hL1
  omega

theorem jsYear_of_dfc_jan1 (y : Int) : jsYear (daysFromCivil y 1 1) = y := by
  unfold jsYear
  rw [civilFromDays_daysFromCivil y 1 1 (by norm_num) (by norm_num) (by norm_num)
    (by have := monthLength_pos y 1; omega)]

theorem jsYear_sub_small (z k : Int) (h0 : 0 ≤ k) (h6 : k ≤ 6) :
    jsYear z - 1 ≤ jsYear (z - k) ∧ jsYear (z - k) ≤ jsYear z := by
  constructor
  · obtain ⟨a1, a2, a3, a4⟩ := civil_bounds z
    have hL1 := daysFromCivil_civilFromDays z
    have c4 : daysFromCivil (civilFromDays z).1 1 1 ≤ z := by
      calc daysFromCivil (civilFromDays z).1 1 1
          ≤ daysFromCivil (civilFromDays z).1 (civilFromDays z).2.1 (civilFromDays z).2.2 :=
            dfc_ge_jan1 _ _ _ a1 a2 a3
      _ = z := hL1
    have hgap := jan1_gap (civilFromDays z).1
    have hmono := jsYear_mono (daysFromCivil ((civilFromDays z).1 - 1) 1 1) (z - k) (by omega)
    rw [jsYear_of_dfc_jan1] at hmono
    unfold jsYear at *
    omega
  · exact jsYear_mono _ _ (by omega)

theorem getPeriodRange_weekly (ws : WeekStart) (hr : ℚ) (ue ae : String) (z : Int) :
    getPeriodRange ⟨PeriodKind.weekly, ws, hr, ue, ae⟩ z =
      some ⟨iso (z - (jsDay z - weekStartNumber ws + 7) % 7),
            iso (z - (jsDay z - weekStartNumber ws + 7) % 7 + 6)⟩ := by
  have e1 : setDate z (jsDate z - (jsDay z - weekStartNumber ws + 7) % 7) =
      z - (jsDay z - weekStartNumber ws + 7) % 7 := by
    rw [setDate_eq]; ring
  have e2 : setDate (z - (jsDay z - weekStartNumber ws + 7) % 7)
      (jsDate (z - (jsDay z - weekStartNumber ws + 7) % 7) + 6) =
      z - (jsDay z - weekStartNumber ws + 7) % 7 + 6 := by
    rw [setDate_eq]; ring
  simp only [getPeriodRange, ite_true, ite_false]
  rw [if_neg (by decide), e1, e2]

theorem getPeriodRange_monthly (ws : WeekStart) (hr : ℚ) (ue ae : String) (z : Int) :
    getPeriodRange ⟨PeriodKind.monthly, ws, hr, ue, ae⟩ z =
      some ⟨iso (mkDate (jsYear z) (jsMonth0 z) 1), iso (mkDate (jsYear z) (jsMonth0 z + 1) 0)⟩ := by
  simp only [getPeriodRange, ite_true, ite_false]

theorem getPeriodRange_custom (ws : WeekStart) (hr : ℚ) (ue ae : String) (z : Int) :
    getPeriodRange ⟨PeriodKind.custom, ws, hr, ue, ae⟩ z = none := by
  simp only [getPeriodRange, ite_true, ite_false]
  rw [if_neg (by decide), if_neg (by decide)]

theorem civil_mkDay_one (y mi : Int) (h1 : 1 ≤ mi) (h2 : mi ≤ 12) :
    civilFromDays (mkDay y (mi - 1) 1) = (y, mi, 1) := by
  have e1 : (mi - 1) / 12 = 0 := by omega
  have e2 : (mi - 1) % 12 + 1 = mi := by omega
  simp only [mkDay, e1, e2, add_zero, sub_self]
  exact civilFromDays_daysFromCivil y mi 1 h1 h2 (by norm_num)
    (by have := monthLength_pos y mi; omega)

set_option maxHeartbeats 2000000 in
theorem month_boundary (y mi : Int) (h1 : 1 ≤ mi) (h2 : mi ≤ 11) :
    daysFromCivil y (mi + 1) 1 - 1 = daysFromCivil y mi (monthLength y mi) := by
  simp only [daysFromCivil, monthLength, isLeap]
  interval_cases mi <;> norm_num <;> (first | omega | (split_ifs <;> omega))

theorem dec_boundary (y : Int) :
    daysFromCivil (y + 1) 1 1 - 1 = daysFromCivil y 12 (monthLength y 12) := by
  simp only [daysFromCivil, monthLength, isLeap]
  norm_num
  omega

theorem civil_mkDay_zero (y mi : Int) (h1 : 1 ≤ mi) (h2 : mi ≤ 12) :
    civilFromDays (mkDay y mi 0) = (y, mi, monthLength y mi) := by
  have hend : mkDay y mi 0 = daysFromCivil y mi (monthLength y mi) := by
    by_cases h12 : mi = 12
    · subst h12
      have e1 : (12 : Int) / 12 = 1 := by norm_num
      have e2 : (12 : Int) % 12 + 1 = 1 := by norm_num
      simp only [mkDay, e1, e2]
      have := dec_boundary y
      omega
    · have e1 : mi / 12 = 0 := by omega
      have e2 : mi % 12 + 1 = mi + 1 := by omega
      simp only [mkDay, e1, e2, add_zero]
      have := month_boundary y mi h1 (by omega)
      omega
  rw [hend]
  exact civilFromDays_daysFromCivil y mi _ h1 h2
    (by have := monthLength_pos y mi; omega) le_rfl

theorem makeFullYear_eq (y : Int) (hq : ¬(0 ≤ y ∧ y ≤ 99)) : makeFullYear y = y := by
  unfold makeFullYear
  rw [if_neg hq]

theorem civil_mkDate_one (y mi : Int) (h1 : 1 ≤ mi) (h2 : mi ≤ 12)
    (hq : ¬(0 ≤ y ∧ y ≤ 99)) :
    civilFromDays (mkDate y (mi - 1) 1) = (y, mi, 1) := by
  show civilFromDays (mkDay (makeFullYear y) (mi - 1) 1) = (y, mi, 1)
  rw [makeFullYear_eq y hq]
  exact civil_mkDay_one y mi h1 h2

theorem civil_mkDate_zero (y mi : Int) (h1 : 1 ≤ mi) (h2 : mi ≤ 12)
    (hq : ¬(0 ≤ y ∧ y ≤ 99)) :
    civilFromDays (mkDate y mi 0) = (y, mi, monthLength y mi) := by
  show civilFromDays (mkDay (makeFullYear y) mi 0) = (y, mi, monthLength y mi)
  rw [makeFullYear_eq y hq]
  exact civil_mkDay_zero y mi h1 h2

theorem jsYear_eq (w y m d : Int) (h : civilFromDays w = (y, m, d)) : jsYear w = y := by
  unfold jsYear; rw [h]

theorem jsMonth0_eq (w y m d : Int) (h : civilFromDays w = (y, m, d)) : jsMonth0 w = m - 1 := by
  unfold jsMonth0; rw [h]

theorem jsDate_eq (w y m d : Int) (h : civilFromDays w = (y, m, d)) : jsDate w = d := by
  unfold jsDate; rw [h]

set_option maxHeartbeats 1000000 in
theorem byOffset_weekly (ws : WeekStart) (hr : ℚ) (ue ae : String) (off z : Int)
    (hy1 : 1001 ≤ jsYear z) (hy2 : jsYear z ≤ 9999) :
    getPeriodByOffset ⟨PeriodKind.weekly, ws, hr, ue, ae⟩ off z =
      some ⟨iso (z - (jsDay z - weekStartNumber ws + 7) % 7 + off * 7),
            iso (z - (jsDay z - weekStartNumber ws + 7) % 7 + off * 7 + 6)⟩ := by
  have hd0 : 0 ≤ (jsDay z - weekStartNumber ws + 7) % 7 := Int.emod_nonneg _ (by norm_num)
  have hd6 : (jsDay z - weekStartNumber ws + 7) % 7 ≤ 6 := by
    have := Int.emod_lt_of_pos (jsDay z - weekStartNumber ws + 7) (show (0:Int) < 7 by norm_num)
    omega
  obtain ⟨hyA, hyB⟩ := jsYear_sub_small z _ hd0 hd6
  have hparse : parseDateString (iso (z - (jsDay z - weekStartNumber ws + 7) % 7)) =
      z - (jsDay z - weekStartNumber ws + 7) % 7 := parse_iso _ (by omega) (by omega)
  have e1 : setDate (z - (jsDay z - weekStartNumber ws + 7) % 7)
      (jsDate (z - (jsDay z - weekStartNumber ws + 7) % 7) + off * 7) =
      z - (jsDay z - weekStartNumber ws + 7) % 7 + off * 7 := by
    rw [setDate_eq]; ring
  have e2 : setDate (z - (jsDay z - weekStartNumber ws + 7) % 7 + off * 7)
      (jsDate (z - (jsDay z - weekStartNumber ws + 7) % 7 + off * 7) + 6) =
      z - (jsDay z - weekStartNumber ws + 7) % 7 + off * 7 + 6 := by
    rw [setDate_eq]; ring
  simp only [getPeriodByOffset, getPeriodRange_weekly, ite_true, ite_false]
  rw [hparse, e1, e2]

set_option maxHeartbeats 1000000 in
theorem byOffset_monthly (ws : WeekStart) (hr : ℚ) (ue ae : String) (off z : Int)
    (hy1 : 1000 ≤ jsYear z) (hy2 : jsYear z ≤ 9999) :
    getPeriodByOffset ⟨PeriodKind.monthly, ws, hr, ue, ae⟩ off z =
      some ⟨iso (daysFromCivil (jsYear z + (jsMonth0 z + off) / 12) ((jsMonth0 z + off) % 12 + 1) 1),
            iso (mkDate (jsYear z + (jsMonth0 z + off) / 12) ((jsMonth0 z + off) % 12 + 1) 0)⟩ := by
  obtain ⟨c1, c2, c3, c4⟩ := civil_bounds z
  have hm0a : jsMonth0 z / 12 = 0 := by unfold jsMonth0; omega
  have hm0b : jsMonth0 z % 12 + 1 = jsMonth0 z + 1 := by unfold jsMonth0; omega
  have e0 : mkDate (jsYear z) (jsMonth0 z) 1 = daysFromCivil (jsYear z) (jsMonth0 z + 1) 1 := by
    show mkDay (makeFullYear (jsYear z)) (jsMonth0 z) 1 = _
    rw [makeFullYear_eq (jsYear z) (by omega)]
    simp only [mkDay, hm0a, hm0b, add_zero, sub_self]
  have ecs : civilFromDays (mkDate (jsYear z) (jsMonth0 z) 1) = (jsYear z, jsMonth0 z + 1, 1) := by
    rw [e0]
    exact civilFromDays_daysFromCivil _ _ 1 (by unfold jsMonth0; omega) (by unfold jsMonth0; omega)
      (by norm_num) (by have := monthLength_pos (jsYear z) (jsMonth0 z + 1); omega)
  have eyear : jsYear (mkDate (jsYear z) (jsMonth0 z) 1) = jsYear z :=
    jsYear_eq _ _ _ _ ecs
  have em0 : jsMonth0 (mkDate (jsYear z) (jsMonth0 z) 1) = jsMonth0 z + 1 - 1 :=
    jsMonth0_eq _ _ _ _ ecs
  have ed0 : jsDate (mkDate (jsYear z) (jsMonth0 z) 1) = 1 :=
    jsDate_eq _ _ _ _ ecs
  have hparse : parseDateString (iso (mkDate (jsYear z) (jsMonth0 z) 1)) =
      mkDate (jsYear z) (jsMonth0 z) 1 := parse_iso _ (by omega) (by omega)
  have hsm : setMonth (mkDate (jsYear z) (jsMonth0 z) 1)
      (jsMonth0 (mkDate (jsYear z) (jsMonth0 z) 1) + off) =
      daysFromCivil (jsYear z + (jsMonth0 z + off) / 12) ((jsMonth0 z + off) % 12 + 1) 1 := by
    simp only [setMonth, eyear, em0, ed0]
    have ee : jsMonth0 z + 1 - 1 + off = jsMonth0 z + off := by ring
    rw [ee]
    simp only [mkDay, sub_self, add_zero]
  have ecs' : civilFromDays
      (daysFromCivil (jsYear z + (jsMonth0 z + off) / 12) ((jsMonth0 z + off) % 12 + 1) 1) =
      (jsYear z + (jsMonth0 z + off) / 12, (jsMonth0 z + off) % 12 + 1, 1) := by
    exact civilFromDays_daysFromCivil _ _ 1
      (by have := Int.emod_nonneg (jsMonth0 z + off) (show (12:Int) ≠ 0 by norm_num); omega)
      (by have := Int.emod_lt_of_pos (jsMonth0 z + off) (show (0:Int) < 12 by norm_num); omega)
      (by norm_num)
      (by have := monthLength_pos (jsYear z + (jsMonth0 z + off) / 12) ((jsMonth0 z + off) % 12 + 1)
          omega)
  simp only [getPeriodByOffset, getPeriodRange_monthly, ite_true, ite_false]
  rw [if_neg (by decide)]
  rw [hparse, hsm]
  have ey' : jsYear (daysFromCivil (jsYear z + (jsMonth0 z + off) / 12)
      ((jsMonth0 z + off) % 12 + 1) 1) = jsYear z + (jsMonth0 z + off) / 12 :=
    jsYear_eq _ _ _ _ ecs'
  have em' : jsMonth0 (daysFromCivil (jsYear z + (jsMonth0 z + off) / 12)
      ((jsMonth0 z + off) % 12 + 1) 1) = (jsMonth0 z + off) % 12 + 1 - 1 :=
    jsMonth0_eq _ _ _ _ ecs'
  rw [ey', em']
  have ee2 : (jsMonth0 z + off) % 12 + 1 - 1 + 1 = (jsMonth0 z + off) % 12 + 1 := by ring
  rw [ee2]

theorem digitChar_ne_colon (d : Nat) (h : d ≤ 9) : digitChar d ≠ ':' := by
  interval_cases d <;> decide

theorem timeToMinutes_timeStr (h m : Nat) (hh : h ≤ 99) (hm : m ≤ 99) :
    timeToMinutes (timeStr h m) = (h : Int) * 60 + m := by
  have hp := pad2_data h hh
  have hq := pad2_data m hm
  unfold timeToMinutes timeStr
  show (parseNatChars ((splitOnChar ':' ((pad2 h).data ++ ':' :: (pad2 m).data)).getD 0 []) : Int)
      * 60 + (parseNatChars ((splitOnChar ':' ((pad2 h).data ++ ':' :: (pad2 m).data)).getD 1 []) : Int) = _
  rw [hp, hq]
  rw [splitOnChar_append _ _ _ (by
    intro c hcm
    simp only [List.mem_cons, List.not_mem_nil, or_false] at hcm
    rcases hcm with rfl | rfl <;> exact digitChar_ne_colon _ (by omega))]
  rw [splitOnChar_no_sep _ _ (by
    intro c hcm
    simp only [List.mem_cons, List.not_mem_nil, or_false] at hcm
    rcases hcm with rfl | rfl <;> exact digitChar_ne_colon _ (by omega))]
  simp only [List.getD, List.get?, Option.getD]
  rw [parseNatChars_two _ _ (by omega) (by omega), parseNatChars_two _ _ (by omega) (by omega)]
  push_cast
  omega

theorem minutesBetween_eq (s e : String) :
    minutesBetween s e =
      max ((if timeToMinutes e < timeToMinutes s then timeToMinutes e + 1440
            else timeToMinutes e) - timeToMinutes s) 0 := rfl

theorem minutesBetween_self (t : String) : minutesBetween t t = 0 := by
  rw [minutesBetween_eq]
  rw [if_neg (lt_irrefl _)]
  simp

/-- C1: `calculateTotals` includes exactly the shifts whose date satisfies
`start <= date <= end` under lexicographic string comparison (all shifts when
the range is `none`), contributes per included shift
`workedMinutes = max(minutesBetween(start, end) - lunchMinutes, 0)` and
`pay = workedMinutes / 60 * hourlyRate`, and sums these into a
`PeriodTotals`; when no shift is included the result is
`{ pay := 0, durationMinutes := 0 }`. -/
theorem claim1_calculateTotals (shifts : List Shift) (r? : Option PeriodRange) :
    calculateTotals shifts r? =
      ⟨((includedShifts shifts r?).map shiftPay).sum,
       ((includedShifts shifts r?).map workedMinutes).sum⟩ ∧
    (∀ s : Shift, s ∈ includedShifts shifts r? ↔
      s ∈ shifts ∧ ∀ r, r? = some r → (r.start ≤ s.date ∧ s.date ≤ r.endDate)) ∧
    (includedShifts shifts r? = [] → calculateTotals shifts r? = ⟨0, 0⟩) := by
  refine ⟨calculateTotals_eq shifts r?, fun s => includedShifts_mem shifts r? s, ?_⟩
  intro h
  rw [calculateTotals_eq, h]
  simp

theorem claim1_witness : calculateTotals [] none = ⟨0, 0⟩ :=
  (claim1_calculateTotals [] none).2.2 rfl

/-- C2: for every pair of well-formed `HH:MM` times, `minutesBetween`
converts each to minutes since midnight, adds 1440 to the end value exactly
when it is strictly less than the start value, subtracts, and clamps at 0;
in particular `minutesBetween "09:00" "17:00" = 480`,
`minutesBetween "22:30" "06:00" = 450`, and `minutesBetween t t = 0` for
every `t`. -/
theorem claim2_minutesBetween (sh sm eh em : Nat) (h1 : sh ≤ 23) (h2 : sm ≤ 59)
    (h3 : eh ≤ 23) (h4 : em ≤ 59) :
    minutesBetween (timeStr sh sm) (timeStr eh em) =
      max ((if ((eh : Int) * 60 + em) < ((sh : Int) * 60 + sm)
            then ((eh : Int) * 60 + em) + 1440 else ((eh : Int) * 60 + em)) -
        ((sh : Int) * 60 + sm)) 0 ∧
    minutesBetween "09:00" "17:00" = 480 ∧
    minutesBetween "22:30" "06:00" = 450 ∧
    (∀ t : String, minutesBetween t t = 0) := by
  refine ⟨?_, by decide, by decide, minutesBetween_self⟩
  rw [minutesBetween_eq, timeToMinutes_timeStr _ _ (by omega) (by omega),
    timeToMinutes_timeStr _ _ (by omega) (by omega)]

theorem claim2_witness : minutesBetween "09:00" "17:00" = 480 :=
  (claim2_minutesBetween 9 0 17 0 (by norm_num) (by norm_num) (by norm_num) (by norm_num)).2.1

set_option maxRecDepth 4000 in
/-- C3: for every weekly config with week start `w` and reference day `z`,
`getPeriodRange` returns the inclusive 7-day range starting at `z - diff`
with `diff = (weekday z - weekday w + 7) % 7 ∈ [0, 6]` and ending at
`start + 6`; in particular for Monday weeks and reference date 2025-01-15
(a Wednesday) it returns 2025-01-13 .. 2025-01-19. -/
theorem claim3_weeklyRange (ws : WeekStart) (hr : ℚ) (ue ae : String) (z : Int) :
    getPeriodRange ⟨PeriodKind.weekly, ws, hr, ue, ae⟩ z =
      some ⟨iso (z - (jsDay z - weekStartNumber ws + 7) % 7),
            iso (z - (jsDay z - weekStartNumber ws + 7) % 7 + 6)⟩ ∧
    0 ≤ (jsDay z - weekStartNumber ws + 7) % 7 ∧
    (jsDay z - weekStartNumber ws + 7) % 7 ≤ 6 ∧
    getPeriodRange ⟨PeriodKind.weekly, WeekStart.monday, 25, "", ""⟩ (daysFromCivil 2025 1 15) =
      some ⟨"2025-01-13", "2025-01-19"⟩ := by
  refine ⟨getPeriodRange_weekly ws hr ue ae z, Int.emod_nonneg _ (by norm_num), ?_, by decide⟩
  have := Int.emod_lt_of_pos (jsDay z - weekStartNumber ws + 7) (show (0:Int) < 7 by norm_num)
  omega

set_option maxRecDepth 4000 in
/-- C4: for every weekly config, signed offset and reference day (with a
four-digit year, where the `YYYY-MM-DD` round trip is faithful),
`getPeriodByOffset` shifts both ends of the offset-0 range by `offset * 7`
days, preserving the 7-day width; in particular from 2025-01-15 offset -1
gives 2025-01-06 .. 2025-01-12 and offset +1 gives
2025-01-20 .. 2025-01-26. -/
theorem claim4_weeklyOffset (ws : WeekStart) (hr : ℚ) (ue ae : String) (off z : Int)
    (hy1 : 1001 ≤ jsYear z) (hy2 : jsYear z ≤ 9999) :
    getPeriodByOffset ⟨PeriodKind.weekly, ws, hr, ue, ae⟩ off z =
      some ⟨iso (z - (jsDay z - weekStartNumber ws + 7) % 7 + off * 7),
            iso (z - (jsDay z - weekStartNumber ws + 7) % 7 + off * 7 + 6)⟩ ∧
    getPeriodByOffset ⟨PeriodKind.weekly, WeekStart.monday, 25, "", ""⟩ (-1)
      (daysFromCivil 2025 1 15) = some ⟨"2025-01-06", "2025-01-12"⟩ ∧
    getPeriodByOffset ⟨PeriodKind.weekly, WeekStart.monday, 25, "", ""⟩ 1
      (daysFromCivil 2025 1 15) = some ⟨"2025-01-20", "2025-01-26"⟩ :=
  ⟨byOffset_weekly ws hr ue ae off z hy1 hy2, by decide, by decide⟩

set_option maxRecDepth 4000 in
theorem claim4_witness :
    getPeriodByOffset ⟨PeriodKind.weekly, WeekStart.monday, 25, "", ""⟩ (-1)
      (daysFromCivil 2025 1 15) = some ⟨"2025-01-06", "2025-01-12"⟩ :=
  (claim4_weeklyOffset WeekStart.monday 25 "" "" (-1) (daysFromCivil 2025 1 15)
    (by decide) (by decide)).2.1

set_option maxRecDepth 4000 in
/-- C5 (amended): for every monthly config, signed offset and reference day
with a four-digit year, provided the target month's year does not fall in
0..99, `getPeriodByOffset` starts the range at day 1 of the month `offset`
calendar months away (rolling over year boundaries in both directions, via
floor division of the 0-based month index by 12) and ends it on the last
day of that target month; in particular from 2025-01-15 offset -1 gives
2024-12-01 .. 2024-12-31 and offset +1 gives 2025-02-01 .. 2025-02-28.
For target years 0..99 the end computation goes through the
`new Date(year, monthIndex, day)` constructor, whose `MakeFullYear` step
rebases such a year argument to 1900 + year, so the program's end lands in
the 1900-shifted month instead (see the counterexample). -/
theorem claim5_monthlyOffset (ws : WeekStart) (hr : ℚ) (ue ae : String) (off z : Int)
    (hy1 : 1000 ≤ jsYear z) (hy2 : jsYear z ≤ 9999)
    (hq : ¬(0 ≤ jsYear z + (jsMonth0 z + off) / 12 ∧ jsYear z + (jsMonth0 z + off) / 12 ≤ 99)) :
    (∃ s e : Int,
      getPeriodByOffset ⟨PeriodKind.monthly, ws, hr, ue, ae⟩ off z = some ⟨iso s, iso e⟩ ∧
      civilFromDays s =
        (jsYear z + (jsMonth0 z + off) / 12, (jsMonth0 z + off) % 12 + 1, 1) ∧
      civilFromDays e =
        (jsYear z + (jsMonth0 z + off) / 12, (jsMonth0 z + off) % 12 + 1,
         monthLength (jsYear z + (jsMonth0 z + off) / 12) ((jsMonth0 z + off) % 12 + 1))) ∧
    getPeriodByOffset ⟨PeriodKind.monthly, WeekStart.monday, 25, "", ""⟩ (-1)
      (daysFromCivil 2025 1 15) = some ⟨"2024-12-01", "2024-12-31"⟩ ∧
    getPeriodByOffset ⟨PeriodKind.monthly, WeekStart.monday, 25, "", ""⟩ 1
      (daysFromCivil 2025 1 15) = some ⟨"2025-02-01", "2025-02-28"⟩ := by
  have hm1 : 1 ≤ (jsMonth0 z + off) % 12 + 1 := by
    have := Int.emod_nonneg (jsMonth0 z + off) (show (12:Int) ≠ 0 by norm_num)
    omega
  have hm2 : (jsMonth0 z + off) % 12 + 1 ≤ 12 := by
    have := Int.emod_lt_of_pos (jsMonth0 z + off) (show (0:Int) < 12 by norm_num)
    omega
  refine ⟨⟨daysFromCivil (jsYear z + (jsMonth0 z + off) / 12) ((jsMonth0 z + off) % 12 + 1) 1,
      mkDate (jsYear z + (jsMonth0 z + off) / 12) ((jsMonth0 z + off) % 12 + 1) 0,
      byOffset_monthly ws hr ue ae off z hy1 hy2, ?_, ?_⟩, by decide, by decide⟩
  · exact civilFromDays_daysFromCivil _ _ 1 hm1 hm2 (by norm_num)
      (by have := monthLength_pos (jsYear z + (jsMonth0 z + off) / 12)
            ((jsMonth0 z + off) % 12 + 1)
          omega)
  · exact civil_mkDate_zero _ _ hm1 hm2 hq

set_option maxRecDepth 4000 in
theorem claim5_witness :
    getPeriodByOffset ⟨PeriodKind.monthly, WeekStart.monday, 25, "", ""⟩ (-1)
      (daysFromCivil 2025 1 15) = some ⟨"2024-12-01", "2024-12-31"⟩ :=
  (claim5_monthlyOffset WeekStart.monday 25 "" "" (-1) (daysFromCivil 2025 1 15)
    (by decide) (by decide) (by decide)).2.1

set_option maxRecDepth 4000 in
/-- C5 counterexample to the unamended claim: from reference day 2025-01-15
with offset -24000 the target month is January of year 25, but the end
computation `new Date(25, 1, 0)` rebases the year to 1925, so the program
does not return the last day of the target month. -/
theorem claim5_counterexample :
    ¬ ∃ s e : Int,
      getPeriodByOffset ⟨PeriodKind.monthly, WeekStart.monday, 25, "", ""⟩ (-24000)
        (daysFromCivil 2025 1 15) = some ⟨iso s, iso e⟩ ∧
      civilFromDays s = (25, 1, 1) ∧
      civilFromDays e = (25, 1, monthLength 25 1) := by
  rintro ⟨s, e, h1, h2, h3⟩
  rw [show monthLength 25 1 = 31 from by decide] at h3
  have he : daysFromCivil 25 1 31 = e := by
    have hL := daysFromCivil_civilFromDays e
    rw [h3] at hL
    exact hL
  have hout : getPeriodByOffset ⟨PeriodKind.monthly, WeekStart.monday, 25, "", ""⟩ (-24000)
      (daysFromCivil 2025 1 15) = some ⟨"25-01-01", "1925-01-31"⟩ := by decide
  have hcomb := hout.symm.trans h1
  rw [Option.some.injEq] at hcomb
  have hiso : iso e = "1925-01-31" := (congrArg PeriodRange.endDate hcomb).symm
  rw [← he] at hiso
  exact absurd hiso (by decide)

set_option maxRecDepth 4000 in
/-- C6 (amended): for every monthly config and reference day whose year does
not fall in 0..99, `getPeriodRange` returns the range from the first
calendar day of the reference day's month through the last calendar day of
that same month, whose length is the calendar's actual month length (28-31
days, 29 in a leap-year February); in particular for 2025-01-15 it returns
2025-01-01 .. 2025-01-31.  For reference years 0..99 both range bounds go
through the `new Date(year, monthIndex, day)` constructor, whose
`MakeFullYear` step rebases the year to 1900 + year, so the program returns
the 1900-shifted month instead (see the counterexample). -/
theorem claim6_monthlyRange (ws : WeekStart) (hr : ℚ) (ue ae : String) (z : Int)
    (hq : ¬(0 ≤ jsYear z ∧ jsYear z ≤ 99)) :
    (∃ s e : Int,
      getPeriodRange ⟨PeriodKind.monthly, ws, hr, ue, ae⟩ z = some ⟨iso s, iso e⟩ ∧
      civilFromDays s = (jsYear z, jsMonth0 z + 1, 1) ∧
      civilFromDays e = (jsYear z, jsMonth0 z + 1, monthLength (jsYear z) (jsMonth0 z + 1)) ∧
      28 ≤ monthLength (jsYear z) (jsMonth0 z + 1) ∧
      monthLength (jsYear z) (jsMonth0 z + 1) ≤ 31) ∧
    getPeriodRange ⟨PeriodKind.monthly, WeekStart.monday, 25, "", ""⟩ (daysFromCivil 2025 1 15) =
      some ⟨"2025-01-01", "2025-01-31"⟩ := by
  obtain ⟨c1, c2, c3, c4⟩ := civil_bounds z
  refine ⟨⟨mkDate (jsYear z) (jsMonth0 z) 1, mkDate (jsYear z) (jsMonth0 z + 1) 0,
    getPeriodRange_monthly ws hr ue ae z, ?_, ?_, monthLength_pos _ _, monthLength_le _ _⟩,
    by decide⟩
  · have h := civil_mkDate_one (jsYear z) (jsMonth0 z + 1) (by unfold jsMonth0; omega)
      (by unfold jsMonth0; omega) hq
    rwa [show jsMonth0 z + 1 - 1 = jsMonth0 z from by ring] at h
  · exact civil_mkDate_zero _ _ (by unfold jsMonth0; omega) (by unfold jsMonth0; omega) hq

set_option maxRecDepth 4000 in
theorem claim6_witness :
    getPeriodRange ⟨PeriodKind.monthly, WeekStart.monday, 25, "", ""⟩ (daysFromCivil 2025 1 15) =
      some ⟨"2025-01-01", "2025-01-31"⟩ :=
  (claim6_monthlyRange WeekStart.monday 25 "" "" (daysFromCivil 2025 1 15) (by decide)).2

set_option maxRecDepth 4000 in
/-- C6 counterexample to the unamended claim: for reference day 0025-06-10
the constructor calls `new Date(25, 5, 1)` and `new Date(25, 6, 0)` rebase
the year to 1925, so the program returns the range 1925-06-01 .. 1925-06-30
rather than the reference day's own month. -/
theorem claim6_counterexample :
    ¬ ∃ s e : Int,
      getPeriodRange ⟨PeriodKind.monthly, WeekStart.monday, 25, "", ""⟩ (daysFromCivil 25 6 10) =
        some ⟨iso s, iso e⟩ ∧
      civilFromDays s = (jsYear (daysFromCivil 25 6 10),
        jsMonth0 (daysFromCivil 25 6 10) + 1, 1) ∧
      civilFromDays e = (jsYear (daysFromCivil 25 6 10),
        jsMonth0 (daysFromCivil 25 6 10) + 1,
        monthLength (jsYear (daysFromCivil 25 6 10)) (jsMonth0 (daysFromCivil 25 6 10) + 1)) := by
  rintro ⟨s, e, h1, h2, h3⟩
  rw [show jsYear (daysFromCivil 25 6 10) = 25 from by decide,
    show jsMonth0 (daysFromCivil 25 6 10) + 1 = 6 from by decide] at h2
  have hs : daysFromCivil 25 6 1 = s := by
    have hL := daysFromCivil_civilFromDays s
    rw [h2] at hL
    exact hL
  have hout : getPeriodRange ⟨PeriodKind.monthly, WeekStart.monday, 25, "", ""⟩
      (daysFromCivil 25 6 10) = some ⟨"1925-06-01", "1925-06-30"⟩ := by decide
  have hcomb := hout.symm.trans h1
  rw [Option.some.injEq] at hcomb
  have hiso : iso s = "1925-06-01" := (congrArg PeriodRange.start hcomb).symm
  rw [← hs] at hiso
  exact absurd hiso (by decide)

/-- C7: `groupShiftsByDay` buckets the included shifts (same filter as
`calculateTotals`) by date string, sums duration and pay per bucket,
returns exactly one `DayTotal` per distinct date present among the included
shifts and none for other dates, and the result is sorted by date
descending. -/
theorem claim7_groupShiftsByDay (shifts : List Shift) (r? : Option PeriodRange) :
    List.Sorted (fun a b : DayTotal => b.date ≤ a.date) (groupShiftsByDay shifts r?) ∧
    ((groupShiftsByDay shifts r?).map DayTotal.date).Nodup ∧
    (∀ d, d ∈ (groupShiftsByDay shifts r?).map DayTotal.date ↔
      d ∈ (includedShifts shifts r?).map Shift.date) ∧
    (∀ e ∈ groupShiftsByDay shifts r?,
      e.durationMinutes = dayMinutes (includedShifts shifts r?) e.date ∧
      e.pay = dayPay (includedShifts shifts r?) e.date) := by
  obtain ⟨a, b, c, d, _, _⟩ := groupShiftsByDay_spec shifts r?
  exact ⟨a, b, c, d⟩

theorem claim7_witness :
    "2025-01-14" ∈ (groupShiftsByDay
      [⟨"1", "2025-01-13", "22:00", "06:00", 30, "", 20⟩,
       ⟨"3", "2025-01-14", "09:00", "17:00", 60, "", 25⟩] none).map DayTotal.date :=
  ((claim7_groupShiftsByDay _ none).2.2.1 "2025-01-14").mpr (by decide)

/-- C8: the shifts contributing to `groupShiftsByDay` are exactly the
shifts contributing to `calculateTotals` for the same range, and the sums
of `DayTotal.pay` and `DayTotal.durationMinutes` over the returned buckets
equal `PeriodTotals.pay` and `PeriodTotals.durationMinutes` exactly (the
model computes pay in `ℚ`, so the floating-point tolerance of the claim is
sharpened to equality). -/
theorem claim8_sums (shifts : List Shift) (r? : Option PeriodRange) :
    ((groupShiftsByDay shifts r?).map DayTotal.pay).sum = (calculateTotals shifts r?).pay ∧
    ((groupShiftsByDay shifts r?).map DayTotal.durationMinutes).sum =
      (calculateTotals shifts r?).durationMinutes ∧
    (∀ d, d ∈ (groupShiftsByDay shifts r?).map DayTotal.date ↔
      d ∈ (includedShifts shifts r?).map Shift.date) := by
  obtain ⟨_, _, hmem, _, hpay, hmin⟩ := groupShiftsByDay_spec shifts r?
  rw [calculateTotals_eq shifts r?]
  exact ⟨hpay, hmin, hmem⟩

theorem claim8_witness :
    ((groupShiftsByDay [] none).map DayTotal.pay).sum = (calculateTotals [] none).pay :=
  (claim8_sums [] none).1

/-- C9: for every config with period `custom`, `getPeriodRange` returns
`none` (unbounded, no date filter) and `getPeriodByOffset` returns `none`
for every offset. -/
theorem claim9_custom (ws : WeekStart) (hr : ℚ) (ue ae : String) (z off : Int) :
    getPeriodRange ⟨PeriodKind.custom, ws, hr, ue, ae⟩ z = none ∧
    getPeriodByOffset ⟨PeriodKind.custom, ws, hr, ue, ae⟩ off z = none := by
  refine ⟨getPeriodRange_custom ws hr ue ae z, ?_⟩
  simp only [getPeriodByOffset, getPeriodRange_custom ws hr ue ae z]

/-- C10: for well-formed `HH:MM` times, when the two times are distinct the
two directed durations sum to 1440, and the result always lies in
[0, 1439]; a full 24-hour shift cannot be expressed since equal start and
end yield 0 rather than 1440. -/
theorem claim10_involution (sh sm eh em : Nat) (h1 : sh ≤ 23) (h2 : sm ≤ 59)
    (h3 : eh ≤ 23) (h4 : em ≤ 59) :
    (¬(sh = eh ∧ sm = em) →
      minutesBetween (timeStr sh sm) (timeStr eh em) +
        minutesBetween (timeStr eh em) (timeStr sh sm) = 1440) ∧
    0 ≤ minutesBetween (timeStr sh sm) (timeStr eh em) ∧
    minutesBetween (timeStr sh sm) (timeStr eh em) ≤ 1439 := by
  rw [minutesBetween_eq, minutesBetween_eq,
    timeToMinutes_timeStr _ _ (by omega) (by omega),
    timeToMinutes_timeStr _ _ (by omega) (by omega)]
  refine ⟨fun hne => ?_, ?_, ?_⟩ <;> split_ifs <;> omega

theorem claim10_witness :
    minutesBetween (timeStr 22 30) (timeStr 6 0) +
      minutesBetween (timeStr 6 0) (timeStr 22 30) = 1440 :=
  (claim10_involution 22 30 6 0 (by norm_num) (by norm_num) (by norm_num)
    (by norm_num)).1 (by simp)
